import Mathlib

/-!
Verification of `parse_oeis_database.py` (OEIS flat-file entry parser).

The Python source is shallowly embedded below.  Python strings are
modelled as `List Char` (`Str`), Python `int` as `Int`, fatal errors
(Python `assert` failures and uncaught exceptions) as `Except Err`,
and the module-level `logger.warning` / `logger.error` calls that do
not abort parsing as an accumulated list of `Diag` values.
-/

set_option maxHeartbeats 1000000

deriving instance DecidableEq for Except

namespace Oeis

/-- Python strings are modelled as lists of characters. -/
abbrev Str := List Char

/-- Python `s.split(c)` for a one-character separator: splits at every
occurrence, keeping empty fragments (`"".split(",") == [""]`). -/
def splitOnChar (c : Char) : Str → List Str
  | [] => [[]]
  | x :: xs =>
    if x = c then [] :: splitOnChar c xs
    else
      match splitOnChar c xs with
      | [] => [[x]]
      | y :: ys => (x :: y) :: ys

/-- Characters stripped by Python `str.strip()` with no argument. -/
def isPySpace (c : Char) : Bool :=
  c = ' ' || c = '\t' || c = '\n' || c = '\r' || c = '\x0b' || c = '\x0c'

/-- Python `str.strip()`. -/
def pyStrip (l : Str) : Str :=
  ((l.dropWhile isPySpace).reverse.dropWhile isPySpace).reverse

/-- Python `s.startswith(p)`: `beginsWith p s`. -/
def beginsWith : Str → Str → Bool
  | [], _ => true
  | _ :: _, [] => false
  | p :: ps, x :: xs => p = x && beginsWith ps xs

/-- Python `line.endswith(",")`. -/
def endsWithComma (l : Str) : Bool := l.getLast? = some ','

/-- Value of a (non-empty, all-digit) digit string, most significant first. -/
def digitsVal (l : Str) : Nat :=
  l.foldl (fun a c => 10 * a + (c.toNat - '0'.toNat)) 0

/-- Python `int(s)` on an already-stripped string: an optional sign
followed by one or more ASCII digits.  (Python additionally accepts
underscore digit grouping and non-ASCII digits; such payloads are not
modelled — they fail here, and in the source they either fail or are
caught by the surrounding round-trip assertion.) -/
def pyIntCore : Str → Option Int
  | [] => none
  | '-' :: cs =>
    if !cs.isEmpty && cs.all Char.isDigit then some (-(digitsVal cs : Int)) else none
  | '+' :: cs =>
    if !cs.isEmpty && cs.all Char.isDigit then some ((digitsVal cs : Int)) else none
  | cs =>
    if cs.all Char.isDigit then some ((digitsVal cs : Int)) else none

/-- Python `int(s)` (which strips surrounding whitespace first);
`none` models the `ValueError` exception, which is fatal in the source. -/
def pyInt? (s : Str) : Option Int := pyIntCore (pyStrip s)

/-- Python `str(n)` for an `int`. -/
def intToStr (i : Int) : Str :=
  if i < 0 then '-' :: Nat.toDigits 10 i.natAbs else Nat.toDigits 10 i.natAbs

/-- Python `",".join(strs)`. -/
def joinComma : List Str → Str
  | [] => []
  | [x] => x
  | x :: y :: xs => x ++ ',' :: joinComma (y :: xs)

/-- Parse every fragment with `pyInt?`; `none` if any fragment fails
(modelling the first uncaught `ValueError` in a comprehension). -/
def parseInts : List Str → Option (List Int)
  | [] => some []
  | f :: fs =>
    match pyInt? f, parseInts fs with
    | some v, some vs => some (v :: vs)
    | _, _ => none

/-- Fatal parse failures: each constructor stands for one `assert`
site (or uncaught exception) in `parse_oeis_content`. -/
inductive Err
  | malformedLine            -- `len(line) >= 2` / `line[0] == "%"`
  | outOfOrderDirectives     -- `expected_directive_order.match(...)`
  | unknownDirective         -- `directive in expected_directives`
  | duplicateDirective       -- "only one %X directive is allowed"
  | missingMandatory         -- `line_I/S/N/K is not None`
  | badStart                -- `line.startswith("%X ")`
  | inconsistentContinuation -- the S/T/U continuation asserts
  | intParseError            -- uncaught `ValueError` from `int(...)`
  | digitSequenceCorrupt     -- the STU round-trip assert
deriving DecidableEq, Repr

/-- Non-fatal diagnostics: one constructor per `logger.warning` /
non-aborting `logger.error` call site in `parse_oeis_content`. -/
inductive Diag
  | unacceptableCharacters
  | illFormedIdentification
  | unusualSLine
  | missingAuthor
  | missingOffset
  | illFormedOffset
  | emptyKeyword
  | unknownKeyword (k : Str)
  | duplicateKeyword (k : Str) (count : Nat)
  | fullWithoutFini
  | bfileShorterThanInline
  | valuesMismatch
  | offsetIndexMismatch
  | offsetMagnitudeMismatch
deriving DecidableEq, Repr

/-- Modelled from the spec: the `OeisEntry` record class lives in the
`OeisEntry` module, which is not under `src/`; its fields are taken
from the spec's data model and from the positional constructor call
`OeisEntry(oeis_id, identification, values, name, offset, keywords)`
at the end of `parse_oeis_content`. -/
structure OeisEntry where
  oeis_id : Int
  identification : Option Str
  values : List Int
  name : Str
  offset : List Int
  keywords : List Str
deriving DecidableEq, Repr

/-! Section: b-file parsing (`parse_bfile_content`) -/

/-- Match one or more ASCII digits at the head of the string, returning
their value and the rest (maximal munch, as the regex `[0-9]+` does). -/
def matchNat (cs : Str) : Option (Nat × Str) :=
  let ds := cs.takeWhile Char.isDigit
  if ds.isEmpty then none else some (digitsVal ds, cs.dropWhile Char.isDigit)

/-- Match `-?[0-9]+` at the head of the string. -/
def matchInt : Str → Option (Int × Str)
  | '-' :: cs => (matchNat cs).map (fun p => (-(p.1 : Int), p.2))
  | cs => (matchNat cs).map (fun p => ((p.1 : Int), p.2))

def isSpaceTab (c : Char) : Bool := c = ' ' || c = '\t'

/-- The call `bfile_line_pattern.match(line)`: the anchored-at-start (only!)
regex `(-?[0-9]+)[ \t]+(-?[0-9]+)`, returning the two captured
integers.  Characters after the second integer are not constrained,
because `re.match` only anchors at the beginning. -/
def bfileLineMatch (s : Str) : Option (Int × Int) :=
  match matchInt s with
  | none => none
  | some (i, r1) =>
    if (r1.takeWhile isSpaceTab).isEmpty then none
    else
      match matchInt (r1.dropWhile isSpaceTab) with
      | none => none
      | some (v, _) => some (i, v)

/-- The line loop of `parse_bfile_content`: `idxs`/`vals` are the
accumulated `indexes`/`values` lists; a `break` returns them as is. -/
def parseBfileAux : List Str → List Int → List Int → List Int × List Int
  | [], idxs, vals => (idxs, vals)
  | line :: rest, idxs, vals =>
    if beginsWith "#".data line then parseBfileAux rest idxs vals
    else if (pyStrip line).isEmpty then parseBfileAux rest idxs vals
    else
      match bfileLineMatch (pyStrip line) with
      | none => (idxs, vals)
      | some (i, v) =>
        match idxs.getLast? with
        | some last =>
          if i ≠ last + 1 then (idxs, vals)
          else parseBfileAux rest (idxs ++ [i]) (vals ++ [v])
        | none => parseBfileAux rest (idxs ++ [i]) (vals ++ [v])

/-- The function `parse_bfile_content(oeis_id, bfile_content)`:
returns `(first_index, values)`. -/
def parse_bfile_content (bfile_content : Str) : Option Int × List Int :=
  ((parseBfileAux (splitOnChar '\n' bfile_content) [] []).1.head?,
   (parseBfileAux (splitOnChar '\n' bfile_content) [] []).2)

/-! Section: the directive-order regular expression

`expected_directive_order = re.compile("I(?:S|ST|STU)NC*D*H*F*e*p*t*o*Y*KO?A?E*$")`
— written in the source with `O?A?`; matched against the string of
second characters of the entry's lines.  Because every letter used by
one piece of the pattern occurs in no other piece, the backtracking
regex is equivalent to the deterministic maximal-munch matcher below. -/

/-- Consume a maximal run of the character `c` (the regex `c*`). -/
def dropRun (c : Char) : Str → Str
  | [] => []
  | x :: xs => if x = c then dropRun c xs else x :: xs

/-- Consume at most one occurrence of `c` (the regex `c?`). -/
def dropOpt (c : Char) : Str → Str
  | [] => []
  | x :: xs => if x = c then xs else x :: xs

/-- Consume the `T`/`TU` tail of the alternation `(?:S|ST|STU)`,
the leading `S` having been consumed already. -/
def afterSTU : Str → Str
  | 'T' :: 'U' :: r => r
  | 'T' :: r => r
  | r => r

/-- The tail `O?A?E*$` of the pattern, applied after the `K`. -/
def tailOK (r4 : Str) : Bool := (dropRun 'E' (dropOpt 'A' (dropOpt 'O' r4))).isEmpty

/-- Expect the mandatory `K`, then the tail. -/
def afterK : Str → Bool
  | 'K' :: r4 => tailOK r4
  | _ => false

/-- Apply `dropRun` once per letter, left to right. -/
def dropRuns (L : List Char) (l : Str) : Str :=
  L.foldl (fun acc c => dropRun c acc) l

/-- The letters of the star block `C*D*H*F*e*p*t*o*Y*`, in order. -/
def runLetters : List Char := ['C', 'D', 'H', 'F', 'e', 'p', 't', 'o', 'Y']

/-- The star-block `C*D*H*F*e*p*t*o*Y*` followed by `K` and the tail;
`dropRuns runLetters r2` is exactly
`dropRun 'Y' (dropRun 'o' (... (dropRun 'C' r2)))`. -/
def afterRuns (r2 : Str) : Bool :=
  afterK (dropRuns runLetters r2)

/-- Expect the mandatory `N`, then the star block. -/
def afterN : Str → Bool
  | 'N' :: r2 => afterRuns r2
  | _ => false

/-- The check `expected_directive_order.match(directive_order)` as a Boolean. -/
def matchesDirectiveOrder : Str → Bool
  | 'I' :: 'S' :: r0 => afterN (afterSTU r0)
  | _ => false

/-- Predicate: `l` is a (possibly empty) run of the single character `c`. -/
def IsRun (c : Char) (l : Str) : Prop := ∃ n, l = List.replicate n c

/-- Predicate: `l` is zero or one occurrence of the character `c`. -/
def IsOpt (c : Char) (l : Str) : Prop := l = [] ∨ l = [c]

/-- The spec's directive-order grammar, stated declaratively:
`I (S | ST | STU) N C* D* H* F* e* p* t* o* Y* K O? A? E*`. -/
def DirectiveGrammar (s : Str) : Prop :=
  ∃ stu c d h f e p t o y oP aP eR,
    (stu = ['S'] ∨ stu = ['S', 'T'] ∨ stu = ['S', 'T', 'U']) ∧
    IsRun 'C' c ∧ IsRun 'D' d ∧ IsRun 'H' h ∧ IsRun 'F' f ∧
    IsRun 'e' e ∧ IsRun 'p' p ∧ IsRun 't' t ∧ IsRun 'o' o ∧ IsRun 'Y' y ∧
    IsOpt 'O' oP ∧ IsOpt 'A' aP ∧ IsRun 'E' eR ∧
    s = 'I' :: stu ++ 'N' :: (c ++ d ++ h ++ f ++ e ++ p ++ t ++ o ++ y ++
          'K' :: (oP ++ aP ++ eR))

/-! Section: keywords -/

/-- The `expected_keywords` vocabulary. -/
def expected_keywords : List Str :=
  ["base".data, "bref".data, "changed".data, "cofr".data, "cons".data,
   "core".data, "dead".data, "dumb".data, "dupe".data, "easy".data,
   "eigen".data, "fini".data, "frac".data, "full".data, "hard".data,
   "hear".data, "less".data, "look".data, "more".data, "mult".data,
   "new".data, "nice".data, "nonn".data, "obsc".data, "sign".data,
   "tabf".data, "tabl".data, "uned".data, "unkn".data, "walk".data,
   "word".data, "allocated".data]

/-- Python string `<` (lexicographic by code point). -/
def strLt : Str → Str → Bool
  | [], [] => false
  | [], _ :: _ => true
  | _ :: _, [] => false
  | a :: as, b :: bs => if a = b then strLt as bs else decide (a.toNat < b.toNat)

/-- Insert into a `strLt`-sorted list. -/
def insertSorted (s : Str) : List Str → List Str
  | [] => [s]
  | x :: xs => if strLt s x then s :: x :: xs else x :: insertSorted s xs

/-- Sort a list of strings (used for Python `sorted(...)` on a
duplicate-free list, where stability is irrelevant). -/
def sortStrs (l : List Str) : List Str := l.foldr insertSorted []

/-- Deduplicate keeping first occurrences (the iteration order of a
Python `set`/`Counter` built from the list, for our purposes). -/
def dedupAux (seen : List Str) : List Str → List Str
  | [] => []
  | x :: xs => if x ∈ seen then dedupAux seen xs else x :: dedupAux (seen ++ [x]) xs

def dedupStr (l : List Str) : List Str := dedupAux [] l

/-- Canonical keywords: `sorted(set(k for k in keywords if k != ""))`. -/
def kwCanon (fragments : List Str) : List Str :=
  sortStrs (dedupStr (fragments.filter (fun k => !k.isEmpty)))

/-- The non-fatal diagnostics of the `%K` processing block:
unexpected keywords (in sorted order, the empty keyword reported as
`emptyKeyword`), then duplicate counts (in first-occurrence order),
then the full-without-fini check on the canonical set. -/
def kwDiags (fragments : List Str) : List Diag :=
  (sortStrs (dedupStr (fragments.filter (fun k => k ∉ expected_keywords)))).map
      (fun k => if k.isEmpty then Diag.emptyKeyword else Diag.unknownKeyword k)
    ++ (dedupStr fragments).filterMap
      (fun k => if fragments.count k > 1 then some (Diag.duplicateKeyword k (fragments.count k)) else none)
    ++ (if "full".data ∈ kwCanon fragments ∧ "fini".data ∉ kwCanon fragments
        then [Diag.fullWithoutFini] else [])

/-! Section: per-directive extractors -/

/-- The four accepted `%I` payload shapes:
`N####`, `M####`, `M#### N####`, `M#### N#### N####`. -/
def matchesIdShape (l : Str) : Bool :=
  match l with
  | 'N' :: a :: b :: c :: d :: [] => [a, b, c, d].all Char.isDigit
  | 'M' :: a :: b :: c :: d :: [] => [a, b, c, d].all Char.isDigit
  | 'M' :: a :: b :: c :: d :: ' ' :: 'N' :: e :: f :: g :: h :: [] =>
    [a, b, c, d, e, f, g, h].all Char.isDigit
  | 'M' :: a :: b :: c :: d :: ' ' :: 'N' :: e :: f :: g :: h :: ' ' :: 'N' ::
      i :: j :: k :: m :: [] => [a, b, c, d, e, f, g, h, i, j, k, m].all Char.isDigit
  | _ => false

/-- The `%I` block: a bare `%I` gives an absent identification; a
payload not matching the accepted shapes is a non-fatal warning. -/
def processI (lI : Option Str) : Except Err (Option Str × List Diag) :=
  match lI with
  | none => .error .missingMandatory
  | some l =>
    if l = "%I".data then .ok (none, [])
    else if !beginsWith "%I ".data l then .error .badStart
    else .ok (some (l.drop 3),
              if matchesIdShape (l.drop 3) then [] else [Diag.illFormedIdentification])

/-- The value of `line_S` after the bare-`%S` repair. -/
def stuS1 (s0 : Str) : Str := if s0 = "%S".data then "%S ".data else s0

/-- The warning attached to a bare `%S` line. -/
def stuD1 (s0 : Str) : List Diag :=
  if s0 = "%S".data then [Diag.unusualSLine] else []

def payloadOf : Option Str → Str
  | none => []
  | some l => l.drop 3

def optEndsWithComma : Option Str → Bool
  | none => false
  | some l => endsWithComma l

def optBegins (p : Str) : Option Str → Bool
  | none => true
  | some l => beginsWith p l

/-- The concatenation `S + T + U` of the three payloads. -/
def stuConcat (s1 : Str) (lT lU : Option Str) : Str :=
  s1.drop 3 ++ payloadOf lT ++ payloadOf lU

/-- Python `[v for v in STU.split(",") if len(v) > 0]` (all empty fragments
dropped; non-trailing ones are then caught by the round-trip check). -/
def stuFragments (STU : Str) : List Str :=
  (splitOnChar ',' STU).filter (fun f => !f.isEmpty)

/-- The S/T/U block of `parse_oeis_content`: mandatory `%S`, the two
continuation biconditionals, the bare-`%S` repair, prefix checks,
integer extraction and the comma round-trip check. -/
def processSTU (lS lT lU : Option Str) : Except Err (List Int × Str × List Diag) :=
  match lS with
  | none => .error .missingMandatory
  | some s0 =>
    if lT.isSome ≠ endsWithComma s0 then .error .inconsistentContinuation
    else if lU.isSome ≠ optEndsWithComma lT then .error .inconsistentContinuation
    else if !beginsWith "%S ".data (stuS1 s0) then .error .badStart
    else if !optBegins "%T ".data lT then .error .badStart
    else if !optBegins "%U ".data lU then .error .badStart
    else
      match parseInts (stuFragments (stuConcat (stuS1 s0) lT lU)) with
      | none => .error .intParseError
      | some vals =>
        if joinComma (vals.map intToStr) ≠ stuConcat (stuS1 s0) lT lU then
          .error .digitSequenceCorrupt
        else .ok (vals, stuConcat (stuS1 s0) lT lU, stuD1 s0)

/-- The `%N` block. -/
def processN (lN : Option Str) : Except Err Str :=
  match lN with
  | none => .error .missingMandatory
  | some l => if beginsWith "%N ".data l then .ok (l.drop 3) else .error .badStart

/-- The `%C`/`%D`/`%H` loops: only the prefix assertion is observable. -/
def checkAllBegin (p : Str) (ls : List Str) : Except Err Unit :=
  if ls.all (beginsWith p) then .ok () else .error .badStart

/-- The `%O` block: absence is a warning with an empty offset; a
present line needs the `"%O "` prefix, its payload is comma-split and
every fragment fed to `int(...)` (`intParseError` models the uncaught
`ValueError`); a count other than two is only a warning. -/
def processO (lO : Option Str) : Except Err (List Int × List Diag) :=
  match lO with
  | none => .ok ([], [Diag.missingOffset])
  | some l =>
    if !beginsWith "%O ".data l then .error .badStart
    else
      match parseInts (splitOnChar ',' (l.drop 3)) with
      | none => .error .intParseError
      | some ts => .ok (ts, if ts.length ≠ 2 then [Diag.illFormedOffset] else [])

/-- The `%K` block. -/
def processK (lK : Option Str) : Except Err (List Str × List Diag) :=
  match lK with
  | none => .error .missingMandatory
  | some l =>
    if !beginsWith "%K ".data l then .error .badStart
    else .ok (kwCanon (splitOnChar ',' (l.drop 3)),
              kwDiags (splitOnChar ',' (l.drop 3)))

/-! Section: sequence reconciliation -/

/-- Python `all(bfile_values[i] == stu_values[i] for i in range(min(...)))`. -/
def overlapAllMatch (stu bf : List Int) : Bool :=
  (List.range (min stu.length bf.length)).all (fun i => bf.getD i 0 == stu.getD i 0)

/-- Lines 357–368: the b-file-shorter warning, the overlap comparison,
and the choice of the authoritative `values`. -/
def reconcileValues (stu bf : List Int) : List Int × List Diag :=
  if overlapAllMatch stu bf then
    ((if bf.length > stu.length then bf else stu),
     if bf.length < stu.length then [Diag.bfileShorterThanInline] else [])
  else
    (stu, (if bf.length < stu.length then [Diag.bfileShorterThanInline] else [])
            ++ [Diag.valuesMismatch])

/-- The quantity `first_index_where_magnitude_exceeds_1` (lines 373–377). -/
def firstIndexMagnitudeExceeds1 (values : List Int) : Int :=
  match (List.range values.length).filter (fun i => 1 < (values.getD i 0).natAbs) with
  | [] => 1
  | i :: _ => (i : Int) + 1

/-- Lines 370–380: the two offset-versus-values comparisons, using
`offset[0]` and `offset[1]` whenever the tuple is long enough. -/
def offsetCompareDiags (offset : List Int) (bfirst : Option Int) (values : List Int) :
    List Diag :=
  (if offset.length > 0 ∧ some (offset.getD 0 0) ≠ bfirst
   then [Diag.offsetIndexMismatch] else [])
  ++ (if offset.length > 1 ∧ offset.getD 1 0 ≠ firstIndexMagnitudeExceeds1 values
      then [Diag.offsetMagnitudeMismatch] else [])

/-! Section: directive collection -/

/-- The list `expected_directives`. -/
def expected_directives : List Str :=
  ["%I".data, "%S".data, "%T".data, "%U".data, "%N".data, "%D".data,
   "%H".data, "%F".data, "%Y".data, "%A".data, "%O".data, "%p".data,
   "%t".data, "%o".data, "%E".data, "%e".data, "%K".data, "%C".data]

/-- The per-directive permitted-character table.  The `charmap`
module holding `acceptable_characters` is not under `src/`, so the
table is kept abstract: any table produces only the non-fatal
`unacceptableCharacters` warning, exactly as the source does. -/
def CharTable := Str → Option (List Char)

/-- A table with no permitted-character entries (no line ever warns). -/
def emptyCT : CharTable := fun _ => none

/-- The character-set side check of the collection loop. -/
def charDiags (ct : CharTable) (d line : Str) : List Diag :=
  match ct d with
  | none => []
  | some acc => if line.any (fun c => c ∉ acc) then [Diag.unacceptableCharacters] else []

/-- The mutable collection state of the directive loop. -/
structure Collected where
  line_I : Option Str := none
  line_S : Option Str := none
  line_T : Option Str := none
  line_U : Option Str := none
  line_N : Option Str := none
  lines_C : List Str := []
  lines_D : List Str := []
  lines_H : List Str := []
  line_K : Option Str := none
  line_O : Option Str := none
  lines_A : List Str := []
  diags : List Diag := []

/-- Attach the character-set warning of one line to the state. -/
def noteChars (ct : CharTable) (c : Collected) (line : Str) : Collected :=
  { c with diags := c.diags ++ charDiags ct (List.take 2 line) line }

/-- Field updaters for the collection state (one per stored slot). -/
def setI (c : Collected) (l : Str) : Collected := { c with line_I := some l }

def setS (c : Collected) (l : Str) : Collected := { c with line_S := some l }

def setT (c : Collected) (l : Str) : Collected := { c with line_T := some l }

def setU (c : Collected) (l : Str) : Collected := { c with line_U := some l }

def setN (c : Collected) (l : Str) : Collected := { c with line_N := some l }

def setK (c : Collected) (l : Str) : Collected := { c with line_K := some l }

def setO (c : Collected) (l : Str) : Collected := { c with line_O := some l }

def addC (c : Collected) (l : Str) : Collected := { c with lines_C := c.lines_C ++ [l] }

def addD (c : Collected) (l : Str) : Collected := { c with lines_D := c.lines_D ++ [l] }

def addH (c : Collected) (l : Str) : Collected := { c with lines_H := c.lines_H ++ [l] }

def addA (c : Collected) (l : Str) : Collected := { c with lines_A := c.lines_A ++ [l] }

/-- The only two fatal errors the collection loop can raise. -/
inductive CollErr
  | unknown
  | dup
deriving DecidableEq, Repr

/-- Conversion of collection-loop errors into the global error type. -/
def collErrToErr : CollErr → Err
  | .unknown => .unknownDirective
  | .dup => .duplicateDirective

/-- One iteration of the collection loop (lines 192-230): the
membership assertion `directive in expected_directives` (here a
dispatch on the directive characters, with the catch-all arm playing
the role of the failing assert), the character-set warning via
`noteChars`, and the per-directive slot updates with their only-one
assertions. -/
def collectStep (ct : CharTable) (c0 : Collected) (line : Str) : Except CollErr Collected :=
  match line with
  | '%' :: 'I' :: r =>
    match c0.line_I with
    | some _ => .error .dup
    | none => .ok (setI (noteChars ct c0 ('%' :: 'I' :: r)) ('%' :: 'I' :: r))
  | '%' :: 'S' :: r =>
    match c0.line_S with
    | some _ => .error .dup
    | none => .ok (setS (noteChars ct c0 ('%' :: 'S' :: r)) ('%' :: 'S' :: r))
  | '%' :: 'T' :: r =>
    match c0.line_T with
    | some _ => .error .dup
    | none => .ok (setT (noteChars ct c0 ('%' :: 'T' :: r)) ('%' :: 'T' :: r))
  | '%' :: 'U' :: r =>
    match c0.line_U with
    | some _ => .error .dup
    | none => .ok (setU (noteChars ct c0 ('%' :: 'U' :: r)) ('%' :: 'U' :: r))
  | '%' :: 'N' :: r =>
    match c0.line_N with
    | some _ => .error .dup
    | none => .ok (setN (noteChars ct c0 ('%' :: 'N' :: r)) ('%' :: 'N' :: r))
  | '%' :: 'K' :: r =>
    match c0.line_K with
    | some _ => .error .dup
    | none => .ok (setK (noteChars ct c0 ('%' :: 'K' :: r)) ('%' :: 'K' :: r))
  | '%' :: 'O' :: r =>
    match c0.line_O with
    | some _ => .error .dup
    | none => .ok (setO (noteChars ct c0 ('%' :: 'O' :: r)) ('%' :: 'O' :: r))
  | '%' :: 'C' :: r =>
    .ok (addC (noteChars ct c0 ('%' :: 'C' :: r)) ('%' :: 'C' :: r))
  | '%' :: 'D' :: r =>
    .ok (addD (noteChars ct c0 ('%' :: 'D' :: r)) ('%' :: 'D' :: r))
  | '%' :: 'H' :: r =>
    .ok (addH (noteChars ct c0 ('%' :: 'H' :: r)) ('%' :: 'H' :: r))
  | '%' :: 'A' :: r =>
    .ok (addA (noteChars ct c0 ('%' :: 'A' :: r)) ('%' :: 'A' :: r))
  | '%' :: 'F' :: r => .ok (noteChars ct c0 ('%' :: 'F' :: r))
  | '%' :: 'Y' :: r => .ok (noteChars ct c0 ('%' :: 'Y' :: r))
  | '%' :: 'p' :: r => .ok (noteChars ct c0 ('%' :: 'p' :: r))
  | '%' :: 't' :: r => .ok (noteChars ct c0 ('%' :: 't' :: r))
  | '%' :: 'o' :: r => .ok (noteChars ct c0 ('%' :: 'o' :: r))
  | '%' :: 'E' :: r => .ok (noteChars ct c0 ('%' :: 'E' :: r))
  | '%' :: 'e' :: r => .ok (noteChars ct c0 ('%' :: 'e' :: r))
  | _ => .error .unknown

def collectDirectives (ct : CharTable) (lines : List Str) : Except Err Collected :=
  match lines.foldlM (collectStep ct) {} with
  | .error e => .error (collErrToErr e)
  | .ok c => .ok c

/-- Python `len(line) >= 2 and line[0] == "%"`. -/
def lineShapeOk : Str → Bool
  | '%' :: _ :: _ => true
  | _ => false

def linesWellShaped (ls : List Str) : Bool := ls.all lineShapeOk

/-- Python `line[1]` (the directive code character; lines are known to have
length at least two when this is used). -/
def secondChar : Str → Char
  | _ :: b :: _ => b
  | _ => ' '

/-! Section: the whole-entry parser -/

/-- Everything after the directive-order check. -/
def parseAfterOrder (ct : CharTable) (oid : Int) (lines : List Str) (bfile : Str) :
    Except Err (OeisEntry × List Diag) :=
  match collectDirectives ct lines with
  | .error e => .error e
  | .ok coll =>
  match processI coll.line_I with
  | .error e => .error e
  | .ok (idf, dI) =>
  match processSTU coll.line_S coll.line_T coll.line_U with
  | .error e => .error e
  | .ok (stu_values, _STU, dS) =>
  match processN coll.line_N with
  | .error e => .error e
  | .ok name =>
  match checkAllBegin "%C ".data coll.lines_C with
  | .error e => .error e
  | .ok _ =>
  match checkAllBegin "%D ".data coll.lines_D with
  | .error e => .error e
  | .ok _ =>
  match checkAllBegin "%H ".data coll.lines_H with
  | .error e => .error e
  | .ok _ =>
  match processO coll.line_O with
  | .error e => .error e
  | .ok (offset, dO) =>
  match processK coll.line_K with
  | .error e => .error e
  | .ok (keywords, dK) =>
    .ok (⟨oid, idf, (reconcileValues stu_values (parse_bfile_content bfile).2).1,
          name, offset, keywords⟩,
         coll.diags ++ dI ++ dS
           ++ (if coll.lines_A.isEmpty then [Diag.missingAuthor] else [])
           ++ dO ++ dK
           ++ (reconcileValues stu_values (parse_bfile_content bfile).2).2
           ++ offsetCompareDiags offset (parse_bfile_content bfile).1
                (reconcileValues stu_values (parse_bfile_content bfile).2).1)

/-- The function `parse_oeis_content(oeis_id, main_content, bfile_content)`:
line-shape check, directive-order check, then the rest. -/
def parse_oeis_content (ct : CharTable) (oid : Int) (main bfile : Str) :
    Except Err (OeisEntry × List Diag) :=
  if !linesWellShaped (splitOnChar '\n' main) then .error .malformedLine
  else if !matchesDirectiveOrder ((splitOnChar '\n' main).map secondChar) then
    .error .outOfOrderDirectives
  else parseAfterOrder ct oid (splitOnChar '\n' main) bfile

/-- The entry loop of the function `process_database`: each row is parsed in id
order and its entry appended; an uncaught fatal error propagates and
aborts the loop (the source has no per-entry exception handler). -/
def process_database (ct : CharTable) : List (Int × Str × Str) → Except Err (List OeisEntry)
  | [] => .ok []
  | (oid, main, bfile) :: rest =>
    match parse_oeis_content ct oid main bfile with
    | .error e => .error e
    | .ok (entry, _) =>
      match process_database ct rest with
      | .error e => .error e
      | .ok es => .ok (entry :: es)

/-! Section: lemmas about the directive-order matcher -/

lemma dropRun_decomp (c : Char) (l : Str) :
    ∃ n, l = List.replicate n c ++ dropRun c l ∧ (dropRun c l).head? ≠ some c := by
  induction l with
  | nil => exact ⟨0, rfl, by simp [dropRun]⟩
  | cons x xs ih =>
    by_cases h : x = c
    · obtain ⟨n, hn, hh⟩ := ih
      subst h
      refine ⟨n + 1, ?_, by simpa [dropRun] using hh⟩
      simp only [dropRun, if_pos rfl, List.replicate_succ, List.cons_append]
      exact congrArg _ hn
    · exact ⟨0, by simp [dropRun, h], by simp [dropRun, h, List.head?_cons]⟩

lemma dropRun_of_head (c : Char) (l : Str) (h : l.head? ≠ some c) : dropRun c l = l := by
  cases l with
  | nil => rfl
  | cons x xs =>
    simp only [List.head?_cons, ne_eq, Option.some.injEq] at h
    simp [dropRun, h]

lemma dropRun_replicate (c : Char) (n : Nat) (r : Str) (h : r.head? ≠ some c) :
    dropRun c (List.replicate n c ++ r) = r := by
  induction n with
  | zero => simpa using dropRun_of_head c r h
  | succ n ih => simpa [List.replicate_succ, dropRun] using ih

lemma dropRun_eq_nil (c : Char) (l : Str) (h : dropRun c l = []) :
    ∃ n, l = List.replicate n c := by
  obtain ⟨n, hn, _⟩ := dropRun_decomp c l
  rw [h] at hn
  exact ⟨n, by simpa using hn⟩

lemma dropRun_replicate_nil (c : Char) (n : Nat) :
    dropRun c (List.replicate n c) = [] := by
  simpa using dropRun_replicate c n [] (by simp)

lemma dropOpt_of_head (c : Char) (l : Str) (h : l.head? ≠ some c) : dropOpt c l = l := by
  cases l with
  | nil => rfl
  | cons x xs =>
    simp only [List.head?_cons, ne_eq, Option.some.injEq] at h
    simp [dropOpt, h]

lemma dropOpt_cons (c : Char) (r : Str) : dropOpt c (c :: r) = r := by
  simp [dropOpt]

lemma dropOpt_decomp (c : Char) (l : Str) :
    l = c :: dropOpt c l ∨ (dropOpt c l = l ∧ l.head? ≠ some c) := by
  cases l with
  | nil => exact Or.inr ⟨rfl, by simp⟩
  | cons x xs =>
    by_cases h : x = c
    · subst h; exact Or.inl (by simp [dropOpt])
    · exact Or.inr ⟨by simp [dropOpt, h], by simp [List.head?_cons, h]⟩

lemma head_cons_ne (a c : Char) (w : Str) (h : a ≠ c) : (a :: w).head? ≠ some c := by
  simp only [List.head?_cons, ne_eq, Option.some.injEq]
  exact h

lemma headNeRep (x c : Char) (m : Nat) (r : Str) (hx : x ≠ c)
    (h : r.head? ≠ some c) : (List.replicate m x ++ r).head? ≠ some c := by
  cases m with
  | zero => simpa using h
  | succ m => exact head_cons_ne x c _ hx

lemma afterSTU_TU (r : Str) : afterSTU ('T' :: 'U' :: r) = r := rfl

lemma afterSTU_T (y : Char) (ys : Str) (hU : y ≠ 'U') :
    afterSTU ('T' :: y :: ys) = y :: ys := by
  unfold afterSTU
  split
  · rename_i heq; injection heq with h1 h2; injection h2 with h3 _; exact absurd h3 hU
  · rename_i heq; injection heq with h1 h2; rw [h2]
  · rename_i hne1 hne2; exact absurd rfl (hne2 (y :: ys))

lemma afterSTU_notT (x : Char) (xs : Str) (hT : x ≠ 'T') :
    afterSTU (x :: xs) = x :: xs := by
  unfold afterSTU
  split
  · rename_i heq; injection heq with h1 _; exact absurd h1 hT
  · rename_i heq; injection heq with h1 _; exact absurd h1 hT
  · rfl

lemma afterSTU_decomp (r : Str) :
    (∃ r', r = 'T' :: 'U' :: r' ∧ afterSTU r = r') ∨
    (∃ r', r = 'T' :: r' ∧ r'.head? ≠ some 'U' ∧ afterSTU r = r') ∨
    (r.head? ≠ some 'T' ∧ afterSTU r = r) := by
  cases r with
  | nil => exact Or.inr (Or.inr ⟨by simp, rfl⟩)
  | cons x xs =>
    by_cases hT : x = 'T'
    · subst hT
      cases xs with
      | nil => exact Or.inr (Or.inl ⟨[], rfl, by simp, rfl⟩)
      | cons y ys =>
        by_cases hU : y = 'U'
        · subst hU; exact Or.inl ⟨ys, rfl, rfl⟩
        · exact Or.inr (Or.inl ⟨y :: ys, rfl, head_cons_ne y 'U' ys hU,
            afterSTU_T y ys hU⟩)
    · exact Or.inr (Or.inr ⟨head_cons_ne x 'T' xs hT, afterSTU_notT x xs hT⟩)

lemma matchesDirectiveOrder_IS (X : Str) :
    matchesDirectiveOrder ('I' :: 'S' :: X) = afterN (afterSTU X) := by
  unfold matchesDirectiveOrder
  split
  · rename_i heq
    injection heq with h1 h2
    injection h2 with h3 h4
    rw [h4]
  · rename_i hne
    exact absurd rfl (hne X)

lemma afterN_cons (r2 : Str) : afterN ('N' :: r2) = afterRuns r2 := by
  unfold afterN
  split
  · rename_i heq
    injection heq with h1 h2
    rw [h2]
  · rename_i hne
    exact absurd rfl (hne r2)

lemma afterK_cons (r4 : Str) : afterK ('K' :: r4) = tailOK r4 := by
  unfold afterK
  split
  · rename_i heq
    injection heq with h1 h2
    rw [h2]
  · rename_i hne
    exact absurd rfl (hne r4)

lemma head_replicate_ne (x c : Char) (m : Nat) (hx : x ≠ c) :
    (List.replicate m x).head? ≠ some c := by
  cases m with
  | zero => simp
  | succ m => simpa [List.replicate_succ] using hx

/-- Concatenation of character runs given as (letter, length) pairs. -/
def buildRuns : List (Char × Nat) → Str
  | [] => []
  | p :: ps => List.replicate p.2 p.1 ++ buildRuns ps

lemma head_buildRuns_ne (c : Char) (ps : List (Char × Nat)) (w : Str)
    (h1 : ∀ x ∈ ps.map Prod.fst, x ≠ c) (h2 : w.head? ≠ some c) :
    (buildRuns ps ++ w).head? ≠ some c := by
  induction ps with
  | nil => simpa [buildRuns] using h2
  | cons p ps ih =>
    simp only [buildRuns, List.append_assoc]
    exact headNeRep p.1 c p.2 _ (h1 p.1 (by simp)) (ih (fun x hx => h1 x (by simp [hx])))

lemma dropRuns_cons (c : Char) (L : List Char) (l : Str) :
    dropRuns (c :: L) l = dropRuns L (dropRun c l) := rfl

lemma dropRuns_eval (ps : List (Char × Nat)) (w : Str)
    (hp : (ps.map Prod.fst).Pairwise (fun a b => a ≠ b))
    (hw : ∀ c ∈ ps.map Prod.fst, w.head? ≠ some c) :
    dropRuns (ps.map Prod.fst) (buildRuns ps ++ w) = w := by
  induction ps with
  | nil => simp [dropRuns, buildRuns]
  | cons p ps ih =>
    rw [List.map_cons, dropRuns_cons,
        show buildRuns (p :: ps) = List.replicate p.2 p.1 ++ buildRuns ps from rfl,
        List.append_assoc]
    rw [List.map_cons, List.pairwise_cons] at hp
    rw [dropRun_replicate p.1 p.2 _ (head_buildRuns_ne p.1 ps w
          (fun x hx => (hp.1 x hx).symm) (hw p.1 (by simp)))]
    exact ih hp.2 (fun c hc => hw c (by simp [hc]))

lemma dropRuns_decomp (L : List Char) : ∀ l : Str,
    ∃ ps : List (Char × Nat), ps.map Prod.fst = L ∧ l = buildRuns ps ++ dropRuns L l := by
  induction L with
  | nil => exact fun l => ⟨[], rfl, by simp [buildRuns, dropRuns]⟩
  | cons c L ih =>
    intro l
    obtain ⟨n, hn, _⟩ := dropRun_decomp c l
    obtain ⟨ps, hps, hl⟩ := ih (dropRun c l)
    refine ⟨(c, n) :: ps, by simp [hps], ?_⟩
    rw [dropRuns_cons,
        show buildRuns ((c, n) :: ps) = List.replicate n c ++ buildRuns ps from rfl,
        List.append_assoc, ← hl]
    exact hn

lemma tailOK_decomp (r4 : Str) (h : tailOK r4 = true) :
    ∃ oP aP eR, IsOpt 'O' oP ∧ IsOpt 'A' aP ∧ IsRun 'E' eR ∧ r4 = oP ++ (aP ++ eR) := by
  unfold tailOK at h
  rw [List.isEmpty_iff] at h
  obtain ⟨nE, hE⟩ := dropRun_eq_nil 'E' _ h
  rcases dropOpt_decomp 'A' (dropOpt 'O' r4) with hA | ⟨hA, _⟩
  · rcases dropOpt_decomp 'O' r4 with hO | ⟨hO, _⟩
    · exact ⟨['O'], ['A'], List.replicate nE 'E', Or.inr rfl, Or.inr rfl, ⟨nE, rfl⟩,
        by rw [hO, hA, hE]; simp⟩
    · exact ⟨[], ['A'], List.replicate nE 'E', Or.inl rfl, Or.inr rfl, ⟨nE, rfl⟩,
        by conv_lhs => rw [← hO]
           rw [hA, hE]; simp⟩
  · rcases dropOpt_decomp 'O' r4 with hO | ⟨hO, _⟩
    · refine ⟨['O'], [], List.replicate nE 'E', Or.inr rfl, Or.inl rfl, ⟨nE, rfl⟩, ?_⟩
      rw [hO, ← hA, hE]; simp
    · refine ⟨[], [], List.replicate nE 'E', Or.inl rfl, Or.inl rfl, ⟨nE, rfl⟩, ?_⟩
      conv_lhs => rw [← hO, ← hA]
      rw [hE]; simp

lemma tailOK_comp (oP aP : Str) (nE : Nat) (hO : IsOpt 'O' oP) (hA : IsOpt 'A' aP) :
    tailOK (oP ++ (aP ++ List.replicate nE 'E')) = true := by
  unfold tailOK
  rcases hO with rfl | rfl <;> rcases hA with rfl | rfl
  · rw [List.nil_append, List.nil_append,
        dropOpt_of_head 'O' _ (head_replicate_ne 'E' 'O' nE (by decide)),
        dropOpt_of_head 'A' _ (head_replicate_ne 'E' 'A' nE (by decide)),
        dropRun_replicate_nil]
    rfl
  · rw [List.nil_append, List.singleton_append,
        dropOpt_of_head 'O' _ (head_cons_ne 'A' 'O' _ (by decide)),
        dropOpt_cons, dropRun_replicate_nil]
    rfl
  · rw [List.singleton_append, List.nil_append, dropOpt_cons,
        dropOpt_of_head 'A' _ (head_replicate_ne 'E' 'A' nE (by decide)),
        dropRun_replicate_nil]
    rfl
  · rw [List.singleton_append, List.singleton_append, dropOpt_cons,
        dropOpt_cons, dropRun_replicate_nil]
    rfl

/-- The executable matcher embedded from the source's regex accepts
exactly the strings of the spec's declarative directive-order grammar. -/
lemma matchesDirectiveOrder_iff (s : Str) :
    matchesDirectiveOrder s = true ↔ DirectiveGrammar s := by
  constructor
  · intro h
    unfold matchesDirectiveOrder at h
    split at h
    case _ r0 =>
      unfold afterN at h
      split at h
      case _ r2 heq2 =>
        unfold afterRuns at h
        obtain ⟨ps, hps, hl⟩ := dropRuns_decomp runLetters r2
        unfold afterK at h
        split at h
        case _ r4 heq3 =>
          obtain ⟨oP, aP, eR, hO, hA, hE, hr4⟩ := tailOK_decomp r4 h
          rcases ps with _ | ⟨p1, _ | ⟨p2, _ | ⟨p3, _ | ⟨p4, _ | ⟨p5, _ | ⟨p6,
            _ | ⟨p7, _ | ⟨p8, _ | ⟨p9, _ | ⟨p10, ps⟩⟩⟩⟩⟩⟩⟩⟩⟩⟩ <;>
            simp [runLetters] at hps
          obtain ⟨hp1, hp2, hp3, hp4, hp5, hp6, hp7, hp8, hp9⟩ := hps
          rw [heq3, hr4] at hl
          rcases afterSTU_decomp r0 with ⟨r', hr0, hstu⟩ | ⟨r', hr0, hU, hstu⟩ |
            ⟨hT, hstu⟩
          · rw [hstu] at heq2
            subst heq2
            refine ⟨['S', 'T', 'U'], List.replicate p1.2 'C', List.replicate p2.2 'D',
              List.replicate p3.2 'H', List.replicate p4.2 'F', List.replicate p5.2 'e',
              List.replicate p6.2 'p', List.replicate p7.2 't', List.replicate p8.2 'o',
              List.replicate p9.2 'Y', oP, aP, eR, Or.inr (Or.inr rfl),
              ⟨p1.2, rfl⟩, ⟨p2.2, rfl⟩, ⟨p3.2, rfl⟩, ⟨p4.2, rfl⟩, ⟨p5.2, rfl⟩,
              ⟨p6.2, rfl⟩, ⟨p7.2, rfl⟩, ⟨p8.2, rfl⟩, ⟨p9.2, rfl⟩, hO, hA, hE, ?_⟩
            rw [hr0, hl]
            simp [buildRuns, hp1, hp2, hp3, hp4, hp5, hp6, hp7, hp8, hp9,
              List.append_assoc]
          · rw [hstu] at heq2
            subst heq2
            refine ⟨['S', 'T'], List.replicate p1.2 'C', List.replicate p2.2 'D',
              List.replicate p3.2 'H', List.replicate p4.2 'F', List.replicate p5.2 'e',
              List.replicate p6.2 'p', List.replicate p7.2 't', List.replicate p8.2 'o',
              List.replicate p9.2 'Y', oP, aP, eR, Or.inr (Or.inl rfl),
              ⟨p1.2, rfl⟩, ⟨p2.2, rfl⟩, ⟨p3.2, rfl⟩, ⟨p4.2, rfl⟩, ⟨p5.2, rfl⟩,
              ⟨p6.2, rfl⟩, ⟨p7.2, rfl⟩, ⟨p8.2, rfl⟩, ⟨p9.2, rfl⟩, hO, hA, hE, ?_⟩
            rw [hr0, hl]
            simp [buildRuns, hp1, hp2, hp3, hp4, hp5, hp6, hp7, hp8, hp9,
              List.append_assoc]
          · rw [hstu] at heq2
            subst heq2
            refine ⟨['S'], List.replicate p1.2 'C', List.replicate p2.2 'D',
              List.replicate p3.2 'H', List.replicate p4.2 'F', List.replicate p5.2 'e',
              List.replicate p6.2 'p', List.replicate p7.2 't', List.replicate p8.2 'o',
              List.replicate p9.2 'Y', oP, aP, eR, Or.inl rfl,
              ⟨p1.2, rfl⟩, ⟨p2.2, rfl⟩, ⟨p3.2, rfl⟩, ⟨p4.2, rfl⟩, ⟨p5.2, rfl⟩,
              ⟨p6.2, rfl⟩, ⟨p7.2, rfl⟩, ⟨p8.2, rfl⟩, ⟨p9.2, rfl⟩, hO, hA, hE, ?_⟩
            rw [hl]
            simp [buildRuns, hp1, hp2, hp3, hp4, hp5, hp6, hp7, hp8, hp9,
              List.append_assoc]
        case _ => exact absurd h (by simp)
      case _ => exact absurd h (by simp)
    case _ => exact absurd h (by simp)
  · rintro ⟨stu, c, d, hh, f, e, p, t, o, y, oP, aP, eR, hstu,
      ⟨n1, rfl⟩, ⟨n2, rfl⟩, ⟨n3, rfl⟩, ⟨n4, rfl⟩, ⟨n5, rfl⟩, ⟨n6, rfl⟩, ⟨n7, rfl⟩,
      ⟨n8, rfl⟩, ⟨n9, rfl⟩, hO, hA, ⟨nE, rfl⟩, rfl⟩
    have hne : ∀ x ∈ runLetters, 'K' ≠ x := by decide
    have hhead : ∀ x ∈ runLetters,
        ('K' :: (oP ++ (aP ++ List.replicate nE 'E'))).head? ≠ some x :=
      fun x hx => head_cons_ne 'K' x _ (hne x hx)
    have hpair : List.Pairwise (fun a b : Char => a ≠ b) runLetters := by decide
    have hrun : dropRuns runLetters
        (buildRuns [('C', n1), ('D', n2), ('H', n3), ('F', n4), ('e', n5),
          ('p', n6), ('t', n7), ('o', n8), ('Y', n9)] ++
          ('K' :: (oP ++ (aP ++ List.replicate nE 'E')))) =
        'K' :: (oP ++ (aP ++ List.replicate nE 'E')) :=
      dropRuns_eval [('C', n1), ('D', n2), ('H', n3), ('F', n4), ('e', n5),
        ('p', n6), ('t', n7), ('o', n8), ('Y', n9)]
        ('K' :: (oP ++ (aP ++ List.replicate nE 'E'))) hpair hhead
    have hb : List.replicate n1 'C' ++ (List.replicate n2 'D' ++ (List.replicate n3 'H' ++
        (List.replicate n4 'F' ++ (List.replicate n5 'e' ++ (List.replicate n6 'p' ++
        (List.replicate n7 't' ++ (List.replicate n8 'o' ++ (List.replicate n9 'Y' ++
        'K' :: (oP ++ (aP ++ List.replicate nE 'E')))))))))) =
        buildRuns [('C', n1), ('D', n2), ('H', n3), ('F', n4), ('e', n5),
          ('p', n6), ('t', n7), ('o', n8), ('Y', n9)] ++
          ('K' :: (oP ++ (aP ++ List.replicate nE 'E'))) := by
      simp [buildRuns, List.append_assoc]
    have hcore : afterRuns (List.replicate n1 'C' ++ (List.replicate n2 'D' ++
        (List.replicate n3 'H' ++ (List.replicate n4 'F' ++ (List.replicate n5 'e' ++
        (List.replicate n6 'p' ++ (List.replicate n7 't' ++ (List.replicate n8 'o' ++
        (List.replicate n9 'Y' ++ 'K' :: (oP ++ (aP ++ List.replicate nE 'E'))))))))))) =
        true := by
      unfold afterRuns
      rw [hb, hrun, afterK_cons]
      exact tailOK_comp oP aP nE hO hA
    rcases hstu with rfl | rfl | rfl
    · simp only [List.cons_append, List.nil_append]
      rw [matchesDirectiveOrder_IS, afterSTU_notT 'N' _ (by decide), afterN_cons]
      simpa only [List.append_assoc] using hcore
    · simp only [List.cons_append, List.nil_append]
      rw [matchesDirectiveOrder_IS, afterSTU_T 'N' _ (by decide), afterN_cons]
      simpa only [List.append_assoc] using hcore
    · simp only [List.cons_append, List.nil_append]
      rw [matchesDirectiveOrder_IS, afterSTU_TU, afterN_cons]
      simpa only [List.append_assoc] using hcore

/-! Section: the directive-order check is the only source of
`outOfOrderDirectives` -/

lemma processI_ne (x : Option Str) :
    processI x ≠ Except.error Err.outOfOrderDirectives := by
  unfold processI
  repeat' split
  all_goals simp

lemma processSTU_ne (lS lT lU : Option Str) :
    processSTU lS lT lU ≠ Except.error Err.outOfOrderDirectives := by
  unfold processSTU
  repeat' split
  all_goals simp

lemma processN_ne (x : Option Str) :
    processN x ≠ Except.error Err.outOfOrderDirectives := by
  unfold processN
  repeat' split
  all_goals simp

lemma checkAllBegin_ne (p : Str) (ls : List Str) :
    checkAllBegin p ls ≠ Except.error Err.outOfOrderDirectives := by
  unfold checkAllBegin
  split
  all_goals simp

lemma processO_ne (x : Option Str) :
    processO x ≠ Except.error Err.outOfOrderDirectives := by
  unfold processO
  repeat' split
  all_goals simp

lemma processK_ne (x : Option Str) :
    processK x ≠ Except.error Err.outOfOrderDirectives := by
  unfold processK
  repeat' split
  all_goals simp

lemma collErrToErr_ne (e : CollErr) : collErrToErr e ≠ Err.outOfOrderDirectives := by
  cases e <;> simp [collErrToErr]

lemma collectDirectives_ne (ct : CharTable) (lines : List Str) :
    collectDirectives ct lines ≠ Except.error Err.outOfOrderDirectives := by
  unfold collectDirectives
  split
  · rename_i e heq
    simpa using collErrToErr_ne e
  · simp

lemma parseAfterOrder_ne (ct : CharTable) (oid : Int) (lines : List Str) (bfile : Str) :
    parseAfterOrder ct oid lines bfile ≠ Except.error Err.outOfOrderDirectives := by
  unfold parseAfterOrder
  split
  · rename_i e heq
    have : e ≠ Err.outOfOrderDirectives := fun hx =>
      collectDirectives_ne ct lines (hx ▸ heq)
    simpa using this
  rename_i coll heqc
  split
  · rename_i e heq
    have : e ≠ Err.outOfOrderDirectives := fun hx => processI_ne _ (hx ▸ heq)
    simpa using this
  rename_i idf dI heqI
  split
  · rename_i e heq
    have : e ≠ Err.outOfOrderDirectives := fun hx => processSTU_ne _ _ _ (hx ▸ heq)
    simpa using this
  rename_i sv STU dS heqS
  split
  · rename_i e heq
    have : e ≠ Err.outOfOrderDirectives := fun hx => processN_ne _ (hx ▸ heq)
    simpa using this
  rename_i nm heqN
  split
  · rename_i e heq
    have : e ≠ Err.outOfOrderDirectives := fun hx => checkAllBegin_ne _ _ (hx ▸ heq)
    simpa using this
  split
  · rename_i e heq
    have : e ≠ Err.outOfOrderDirectives := fun hx => checkAllBegin_ne _ _ (hx ▸ heq)
    simpa using this
  split
  · rename_i e heq
    have : e ≠ Err.outOfOrderDirectives := fun hx => checkAllBegin_ne _ _ (hx ▸ heq)
    simpa using this
  split
  · rename_i e heq
    have : e ≠ Err.outOfOrderDirectives := fun hx => processO_ne _ (hx ▸ heq)
    simpa using this
  rename_i ofs dO heqO
  split
  · rename_i e heq
    have : e ≠ Err.outOfOrderDirectives := fun hx => processK_ne _ (hx ▸ heq)
    simpa using this
  simp

/-! Section: claim C1 -/

/-- C1: for every entry whose lines pass the line-shape assertions,
`parse_oeis_content` fails with `outOfOrderDirectives` exactly when the
string of directive codes (second character of each line, in line
order) does not belong to the declarative grammar
`I (S | ST | STU) N C* D* H* F* e* p* t* o* Y* K O? A? E*`; in
particular an ordering violation is rejected, never repaired. -/
theorem C1_directive_order_grammar (ct : CharTable) (oid : Int) (main bfile : Str)
    (h : linesWellShaped (splitOnChar '\n' main) = true) :
    parse_oeis_content ct oid main bfile = Except.error Err.outOfOrderDirectives ↔
      ¬ DirectiveGrammar ((splitOnChar '\n' main).map secondChar) := by
  unfold parse_oeis_content
  rw [h]
  by_cases hm : matchesDirectiveOrder ((splitOnChar '\n' main).map secondChar) = true
  · rw [hm]
    simp only [Bool.not_true, Bool.false_eq_true, if_false]
    constructor
    · intro hx
      exact absurd hx (parseAfterOrder_ne ct oid _ bfile)
    · intro hg
      exact absurd ((matchesDirectiveOrder_iff _).mp hm) hg
  · have hm' : matchesDirectiveOrder ((splitOnChar '\n' main).map secondChar) = false :=
      Bool.eq_false_iff.mpr hm
    rw [hm']
    simp only [Bool.not_true, Bool.not_false, Bool.false_eq_true, if_false, if_true]
    constructor
    · intro _ hg
      exact absurd ((matchesDirectiveOrder_iff _).mpr hg) hm
    · intro _
      trivial

/-- Witness for C1: the `"ISKN"`-shaped entry (a `%K` line before the
`%N` line) is rejected with `outOfOrderDirectives`. -/
theorem C1_directive_order_grammar_witness :
    parse_oeis_content emptyCT 1 "%I\n%S 1\n%K nonn\n%N n".data "".data =
      Except.error Err.outOfOrderDirectives :=
  (C1_directive_order_grammar emptyCT 1 "%I\n%S 1\n%K nonn\n%N n".data "".data
      (by decide)).mpr
    (fun hg => absurd ((matchesDirectiveOrder_iff _).mpr hg) (by decide))

/-! Section: claim C2 -/

/-- C2: the S/T/U extractor concatenates the three payloads, splits on
commas dropping empty fragments, parses each fragment as a signed
integer, and succeeds only if re-joining the parsed integers with
commas reproduces the concatenation exactly (first conjunct); for the
inline payload `"1,1,2,3,5"` the extraction succeeds with values
`[1,1,2,3,5]` and the round trip is exact (second conjunct). -/
theorem C2_digit_round_trip :
    (∀ lS lT lU vals STU d, processSTU lS lT lU = Except.ok (vals, STU, d) →
      joinComma (vals.map intToStr) = STU) ∧
    processSTU (some "%S 1,1,2,3,5".data) none none =
      Except.ok ([1, 1, 2, 3, 5], "1,1,2,3,5".data, []) := by
  constructor
  · intro lS lT lU vals STU d h
    cases lS with
    | none => exact absurd h (by simp [processSTU])
    | some s0 =>
      unfold processSTU at h
      repeat' split at h
      all_goals
        first
        | exact Except.noConfusion h
        | (rename_i hguard
           rw [Except.ok.injEq, Prod.mk.injEq, Prod.mk.injEq] at h
           obtain ⟨rfl, rfl, rfl⟩ := h
           exact not_not.mp hguard)
  · decide

/-- Witness for C2: instantiating the round-trip conjunct at the
one-term payload `"1"`. -/
theorem C2_digit_round_trip_witness :
    joinComma (([1] : List Int).map intToStr) = "1".data :=
  C2_digit_round_trip.1 (some "%S 1".data) none none [1] "1".data [] (by decide)

/-! Section: claim C3 -/

/-- Spec-side statement of prefix agreement: the two sequences agree at
every index of the overlapping prefix (the min of the two lengths). -/
def AgreeOnOverlap (stu bf : List Int) : Prop :=
  ∀ i, i < min stu.length bf.length → bf.getD i 0 = stu.getD i 0

instance (stu bf : List Int) : Decidable (AgreeOnOverlap stu bf) :=
  Nat.decidableBallLT _ _

lemma overlapAllMatch_iff (stu bf : List Int) :
    overlapAllMatch stu bf = true ↔ AgreeOnOverlap stu bf := by
  unfold overlapAllMatch AgreeOnOverlap
  rw [List.all_eq_true]
  constructor
  · intro h i hi
    exact beq_iff_eq.mp (h i (List.mem_range.mpr hi))
  · intro h i hmem
    exact beq_iff_eq.mpr (h i (List.mem_range.mp hmem))

/-- C3: if the inline and b-file sequences agree on the overlapping
prefix, the reconciled values are the b-file sequence when it is
strictly longer and the inline sequence otherwise (ties kept inline),
with no `valuesMismatch` diagnostic; on any overlap disagreement the
inline sequence is kept, the b-file is ignored, and a non-fatal
`valuesMismatch` diagnostic is emitted.  Reconciliation is a total
function: it never aborts the entry parse.  The second conjunct is the
spec's tie-break example. -/
theorem C3_reconcile (stu bf : List Int) :
    (reconcileValues stu bf =
      if AgreeOnOverlap stu bf then
        ((if stu.length < bf.length then bf else stu),
         if bf.length < stu.length then [Diag.bfileShorterThanInline] else [])
      else
        (stu, (if bf.length < stu.length then [Diag.bfileShorterThanInline] else [])
                ++ [Diag.valuesMismatch])) ∧
    reconcileValues [1, 1, 2] [1, 1, 2, 3, 5] = ([1, 1, 2, 3, 5], []) := by
  constructor
  · by_cases h : AgreeOnOverlap stu bf
    · have hb : overlapAllMatch stu bf = true := (overlapAllMatch_iff stu bf).mpr h
      simp [reconcileValues, hb, h]
    · have hb : overlapAllMatch stu bf = false :=
        Bool.eq_false_iff.mpr (fun hx => h ((overlapAllMatch_iff stu bf).mp hx))
      simp [reconcileValues, hb, h]
  · decide

/-! Section: claim C4 -/

lemma processO_shape (x : Option Str) (off : List Int) (dO : List Diag)
    (h : processO x = Except.ok (off, dO)) :
    off = [] ∨ off.length = 2 ∨ Diag.illFormedOffset ∈ dO := by
  unfold processO at h
  repeat' split at h
  all_goals
    first
    | exact Except.noConfusion h
    | (rw [Except.ok.injEq, Prod.mk.injEq] at h
       obtain ⟨rfl, rfl⟩ := h
       simp_all)

/-- C4 counterexample: the entry whose `%O` payload is `"1,2,3"` parses
successfully and its offset has three components — non-empty and not of
length two — so the claimed invariant fails on this `OeisEntry`. -/
theorem C4_offset_counterexample :
    parse_oeis_content emptyCT 1 "%I\n%S 1,2\n%N name\n%K nonn\n%O 1,2,3".data "".data =
      Except.ok (⟨1, none, [1, 2], "name".data, [1, 2, 3], ["nonn".data]⟩,
        [Diag.missingAuthor, Diag.illFormedOffset, Diag.bfileShorterThanInline,
         Diag.offsetIndexMismatch]) ∧
    ([1, 2, 3] : List Int) ≠ [] ∧ ([1, 2, 3] : List Int).length ≠ 2 := by
  decide

/-- C4 amended: in every `OeisEntry` produced by `parse_oeis_content`,
the offset is empty, or has exactly two components, or the entry's
diagnostics contain the `illFormedOffset` warning recording that the
`%O` payload did not yield exactly two integers. -/
theorem C4_offset_amended (ct : CharTable) (oid : Int) (main bfile : Str)
    (e : OeisEntry) (d : List Diag)
    (h : parse_oeis_content ct oid main bfile = Except.ok (e, d)) :
    e.offset = [] ∨ e.offset.length = 2 ∨ Diag.illFormedOffset ∈ d := by
  unfold parse_oeis_content at h
  repeat' split at h
  all_goals try exact Except.noConfusion h
  unfold parseAfterOrder at h
  split at h <;> try exact Except.noConfusion h
  split at h <;> try exact Except.noConfusion h
  split at h <;> try exact Except.noConfusion h
  split at h <;> try exact Except.noConfusion h
  split at h <;> try exact Except.noConfusion h
  split at h <;> try exact Except.noConfusion h
  split at h <;> try exact Except.noConfusion h
  split at h <;> try exact Except.noConfusion h
  rename_i offv dOv heqO
  split at h <;> try exact Except.noConfusion h
  rw [Except.ok.injEq, Prod.mk.injEq] at h
  obtain ⟨rfl, rfl⟩ := h
  rcases processO_shape _ _ _ heqO with h1 | h2 | h3
  · exact Or.inl h1
  · exact Or.inr (Or.inl h2)
  · refine Or.inr (Or.inr ?_)
    simp only [List.mem_append]
    tauto

/-- Witness for C4 amended, at the counterexample entry itself (third
disjunct: the diagnostics contain `illFormedOffset`). -/
theorem C4_offset_amended_witness :
    ({ oeis_id := 1, identification := none, values := [1, 2], name := "name".data,
       offset := [1, 2, 3], keywords := ["nonn".data] } : OeisEntry).offset = [] ∨
    ({ oeis_id := 1, identification := none, values := [1, 2], name := "name".data,
       offset := [1, 2, 3], keywords := ["nonn".data] } : OeisEntry).offset.length = 2 ∨
    Diag.illFormedOffset ∈ [Diag.missingAuthor, Diag.illFormedOffset,
      Diag.bfileShorterThanInline, Diag.offsetIndexMismatch] :=
  C4_offset_amended emptyCT 1 "%I\n%S 1,2\n%N name\n%K nonn\n%O 1,2,3".data "".data
    _ _ (by decide)

/-! Section: claim C5 -/

lemma beginsWith_append (p s : Str) : beginsWith p (p ++ s) = true := by
  induction p with
  | nil => rfl
  | cons a as ih => simp [beginsWith, ih]

/-- C5 counterexample: an entry whose `%O` directive carries the
three-character prefix but a non-integer payload (`"%O x"`) makes the
whole entry parse fail fatally (the uncaught `int(...)` exception), so
extraction does not always survive a malformed `%O` payload. -/
theorem C5_offset_fatal_counterexample :
    beginsWith "%O ".data "%O x".data = true ∧
    parse_oeis_content emptyCT 1 "%I\n%S 1\n%N n\n%K nonn\n%O x".data "".data =
      Except.error Err.intParseError := by
  decide

/-- C5 amended: when every comma-separated fragment of the `%O`
payload parses as a signed integer, the extraction never fails: a
fragment count other than two yields only the non-fatal
`illFormedOffset` warning, and the parsed integers are the installed
offset (first conjunct).  Whatever integers were parsed are still used
for the later comparisons: the first whenever at least one is present,
the second whenever at least two are (second and third conjuncts).  A
fragment that does not parse as an integer is instead a fatal error
(the counterexample). -/
theorem C5_offset_amended :
    (∀ payload ts, parseInts (splitOnChar ',' payload) = some ts →
      processO (some ("%O ".data ++ payload)) =
        Except.ok (ts, if ts.length = 2 then [] else [Diag.illFormedOffset])) ∧
    (∀ ts bfirst vals, 0 < ts.length →
      (Diag.offsetIndexMismatch ∈ offsetCompareDiags ts bfirst vals ↔
        some (ts.getD 0 0) ≠ bfirst)) ∧
    (∀ ts bfirst vals, 1 < ts.length →
      (Diag.offsetMagnitudeMismatch ∈ offsetCompareDiags ts bfirst vals ↔
        ts.getD 1 0 ≠ firstIndexMagnitudeExceeds1 vals)) := by
  refine ⟨?_, ?_, ?_⟩
  · intro payload ts h
    unfold processO
    split
    · rename_i heq
      exact Option.noConfusion heq
    rename_i l heq
    injection heq with hl
    subst hl
    rw [beginsWith_append]
    have hd : List.drop 3 ("%O ".data ++ payload) = payload := by
      have h3 : ("%O ".data).length = 3 := rfl
      rw [← h3, List.drop_left]
    rw [hd, h]
    simp only [Bool.not_true, Bool.false_eq_true, if_false]
    by_cases hl : ts.length = 2 <;> simp [hl]
  · intro ts bfirst vals h0
    unfold offsetCompareDiags
    by_cases hne : some (ts.getD 0 0) ≠ bfirst <;>
      by_cases h1 : ts.length > 1 ∧ ts.getD 1 0 ≠ firstIndexMagnitudeExceeds1 vals <;>
      simp [h0, hne, h1]
  · intro ts bfirst vals h1
    unfold offsetCompareDiags
    by_cases hne : ts.getD 1 0 ≠ firstIndexMagnitudeExceeds1 vals <;>
      by_cases h0 : ts.length > 0 ∧ some (ts.getD 0 0) ≠ bfirst <;>
      simp [h1, hne, h0]

/-- Witness for C5 amended: the three-integer payload `"1,2,3"` is
extracted without a fatal error. -/
theorem C5_offset_amended_witness :
    processO (some ("%O ".data ++ "1,2,3".data)) =
      Except.ok ([1, 2, 3],
        if ([1, 2, 3] : List Int).length = 2 then [] else [Diag.illFormedOffset]) :=
  C5_offset_amended.1 "1,2,3".data [1, 2, 3] (by decide)

/-! Section: claim C6 -/

lemma parseBfileAux_len : ∀ (ls : List Str) (idxs vals : List Int),
    idxs.length = vals.length →
    (parseBfileAux ls idxs vals).1.length = (parseBfileAux ls idxs vals).2.length := by
  intro ls
  induction ls with
  | nil => intro idxs vals h; simpa [parseBfileAux] using h
  | cons l rest ih =>
    intro idxs vals h
    unfold parseBfileAux
    repeat' split
    all_goals first
      | exact ih _ _ (by simp [h])
      | exact h

/-- C6: if a parsed b-file line's index is not one greater than the
previous parsed index, parsing stops at that line keeping exactly the
accumulated pairs (first conjunct); the returned `first_index` is
absent exactly when zero lines were parsed (second conjunct); the
spec's example — an index jump from 5 to 7 — keeps only the entries
through index 5 (third conjunct). -/
theorem C6_bfile_sequential :
    (∀ (line : Str) (rest : List Str) (idxs vals : List Int) (i v lastv : Int),
      beginsWith "#".data line = false →
      (pyStrip line).isEmpty = false →
      bfileLineMatch (pyStrip line) = some (i, v) →
      idxs.getLast? = some lastv →
      i ≠ lastv + 1 →
      parseBfileAux (line :: rest) idxs vals = (idxs, vals)) ∧
    (∀ content : Str,
      (parse_bfile_content content).1 = none ↔ (parse_bfile_content content).2 = []) ∧
    parse_bfile_content "1 10\n2 20\n3 30\n4 40\n5 50\n7 70\n8 80".data =
      (some 1, [10, 20, 30, 40, 50]) := by
  refine ⟨?_, ?_, by decide⟩
  · intro line rest idxs vals i v lastv h1 h2 h3 h4 h5
    unfold parseBfileAux
    simp [h1, h2, h3, h4, h5]
  · intro content
    have hlen := parseBfileAux_len (splitOnChar '\n' content) [] [] rfl
    unfold parse_bfile_content
    rw [List.head?_eq_none_iff]
    constructor
    · intro hx
      rw [hx] at hlen
      have := hlen.symm
      simpa [List.length_eq_zero] using this
    · intro hx
      rw [hx] at hlen
      simpa [List.length_eq_zero] using hlen

/-- Witness for C6: a line with index 7 following a last index of 5
stops the parse, keeping the accumulated table. -/
theorem C6_bfile_sequential_witness :
    parseBfileAux ["7 70".data] [5] [50] = ([5], [50]) :=
  C6_bfile_sequential.1 "7 70".data [] [5] [50] 7 70 5 (by decide) (by decide)
    (by decide) (by decide) (by decide)

/-! Section: claim C7 -/

/-- Spec-side predicate, from the claim's wording: the line consists of
exactly two whitespace-separated signed integers `<index> <value>`,
with nothing after the second integer. -/
def lineIsTwoInts (s : Str) : Bool :=
  match matchInt s with
  | none => false
  | some (_, r1) =>
    if (r1.takeWhile isSpaceTab).isEmpty then false
    else
      match matchInt (r1.dropWhile isSpaceTab) with
      | none => false
      | some (_, r2) => r2.isEmpty

/-- C7 counterexample: the line `"1 2x"` does not consist of two
whitespace-separated signed integers, yet b-file parsing does not stop
there — the line is accepted as the pair `(1, 2)` (the source regex is
anchored only at the start) and parsing continues to the next line. -/
theorem C7_bfile_line_counterexample :
    lineIsTwoInts (pyStrip "1 2x".data) = false ∧
    parse_bfile_content "1 2x\n2 5".data = (some 1, [2, 5]) := by
  decide

/-- C7 amended: for a non-comment, non-blank line, b-file parsing stops
at the line exactly when the stripped line does not begin with
`<index><whitespace><value>`: a failed prefix match truncates the table
keeping the accumulated pairs (first conjunct), while a line whose
prefix matches — regardless of trailing characters after the second
integer — contributes its two leading integers and parsing continues
(second conjunct). -/
theorem C7_bfile_line_amended :
    (∀ (line : Str) (rest : List Str) (idxs vals : List Int),
      beginsWith "#".data line = false →
      (pyStrip line).isEmpty = false →
      bfileLineMatch (pyStrip line) = none →
      parseBfileAux (line :: rest) idxs vals = (idxs, vals)) ∧
    (∀ (line : Str) (rest : List Str) (idxs vals : List Int) (i v : Int),
      beginsWith "#".data line = false →
      (pyStrip line).isEmpty = false →
      bfileLineMatch (pyStrip line) = some (i, v) →
      idxs = [] ∨ idxs.getLast? = some (i - 1) →
      parseBfileAux (line :: rest) idxs vals =
        parseBfileAux rest (idxs ++ [i]) (vals ++ [v])) := by
  constructor
  · intro line rest idxs vals h1 h2 h3
    unfold parseBfileAux
    simp [h1, h2, h3]
  · intro line rest idxs vals i v h1 h2 h3 h4
    conv_lhs => rw [parseBfileAux]
    rcases h4 with rfl | h4
    · simp [h1, h2, h3]
    · simp [h1, h2, h3, h4]

/-- Witness for C7 amended: the trailing-junk line `"1 2x"` is
consumed as the pair `(1, 2)` and parsing continues. -/
theorem C7_bfile_line_amended_witness :
    parseBfileAux ["1 2x".data, "2 5".data] [] [] =
      parseBfileAux ["2 5".data] ([] ++ [1]) ([] ++ [2]) :=
  C7_bfile_line_amended.2 "1 2x".data ["2 5".data] [] [] 1 2 (by decide) (by decide)
    (by decide) (Or.inl rfl)

/-! Section: claim C8 -/

lemma charToNat_inj (a b : Char) (h : a.toNat = b.toNat) : a = b := by
  rw [← Char.ofNat_toNat a, ← Char.ofNat_toNat b, h]

lemma strLt_irrefl (a : Str) : strLt a a = false := by
  induction a with
  | nil => rfl
  | cons x xs ih => simp [strLt, ih]

lemma strLt_trans (a b c : Str) (h1 : strLt a b = true) (h2 : strLt b c = true) :
    strLt a c = true := by
  induction a generalizing b c with
  | nil =>
    cases b with
    | nil => simp [strLt] at h1
    | cons b1 bs =>
      cases c with
      | nil => simp [strLt] at h2
      | cons c1 cs => rfl
  | cons a1 as ih =>
    cases b with
    | nil => simp [strLt] at h1
    | cons b1 bs =>
      cases c with
      | nil => simp [strLt] at h2
      | cons c1 cs =>
        by_cases hab : a1 = b1
        · subst hab
          simp only [strLt, if_pos rfl] at h1
          by_cases hac : a1 = c1
          · subst hac
            simp only [strLt, if_pos rfl] at h2 ⊢
            exact ih bs cs h1 h2
          · simp only [strLt, if_neg hac] at h2 ⊢
            exact h2
        · simp only [strLt, if_neg hab, decide_eq_true_eq] at h1
          by_cases hbc : b1 = c1
          · subst hbc
            have hac : a1 ≠ b1 := hab
            simp only [strLt, if_neg hac, decide_eq_true_eq]
            exact h1
          · simp only [strLt, if_neg hbc, decide_eq_true_eq] at h2
            have hac : a1 ≠ c1 := fun he => by
              have := congrArg Char.toNat he
              omega
            simp only [strLt, if_neg hac, decide_eq_true_eq]
            omega

lemma strLt_total (a b : Str) (hne : a ≠ b) (h : strLt a b = false) :
    strLt b a = true := by
  induction a generalizing b with
  | nil =>
    cases b with
    | nil => exact absurd rfl hne
    | cons b1 bs => simp [strLt] at h
  | cons a1 as ih =>
    cases b with
    | nil => rfl
    | cons b1 bs =>
      by_cases hab : a1 = b1
      · subst hab
        simp only [strLt, if_pos rfl] at h ⊢
        exact ih bs (fun hx => hne (by rw [hx])) h
      · simp only [strLt, if_neg hab, if_neg (Ne.symm hab),
          decide_eq_false_iff_not, decide_eq_true_eq] at h ⊢
        have hnn : a1.toNat ≠ b1.toNat := fun hx => hab (charToNat_inj a1 b1 hx)
        omega

lemma mem_insertSorted (s y : Str) (l : List Str) :
    y ∈ insertSorted s l ↔ y = s ∨ y ∈ l := by
  induction l with
  | nil => simp [insertSorted]
  | cons x xs ih =>
    unfold insertSorted
    split
    · simp
    · simp only [List.mem_cons, ih]
      tauto

lemma mem_sortStrs (y : Str) (l : List Str) : y ∈ sortStrs l ↔ y ∈ l := by
  induction l with
  | nil => simp [sortStrs]
  | cons x xs ih =>
    show y ∈ insertSorted x (sortStrs xs) ↔ _
    rw [mem_insertSorted]
    simp [ih]

lemma pairwise_insertSorted (s : Str) (l : List Str) (hs : s ∉ l)
    (hl : List.Pairwise (fun a b => strLt a b = true) l) :
    List.Pairwise (fun a b => strLt a b = true) (insertSorted s l) := by
  induction l with
  | nil => simp [insertSorted]
  | cons x xs ih =>
    rw [List.pairwise_cons] at hl
    unfold insertSorted
    split
    · rename_i hlt
      rw [List.pairwise_cons]
      refine ⟨?_, List.pairwise_cons.mpr hl⟩
      intro y hy
      rcases List.mem_cons.mp hy with rfl | hy
      · exact hlt
      · exact strLt_trans s x y hlt (hl.1 y hy)
    · rename_i hnlt
      rw [List.pairwise_cons]
      have hsx : s ≠ x := fun hx => hs (hx ▸ List.mem_cons_self x xs)
      refine ⟨?_, ih (fun hx => hs (List.mem_cons_of_mem x hx)) hl.2⟩
      intro y hy
      rcases (mem_insertSorted s y xs).mp hy with rfl | hy
      · exact strLt_total y x hsx (Bool.eq_false_iff.mpr hnlt)
      · exact hl.1 y hy

lemma sortStrs_pairwise (l : List Str) (h : l.Nodup) :
    List.Pairwise (fun a b => strLt a b = true) (sortStrs l) := by
  induction l with
  | nil => simp [sortStrs]
  | cons x xs ih =>
    rw [List.nodup_cons] at h
    show List.Pairwise _ (insertSorted x (sortStrs xs))
    exact pairwise_insertSorted x (sortStrs xs)
      (fun hx => h.1 ((mem_sortStrs x xs).mp hx)) (ih h.2)

lemma mem_dedupAux (y : Str) : ∀ (l seen : List Str),
    y ∈ dedupAux seen l ↔ y ∈ l ∧ y ∉ seen := by
  intro l
  induction l with
  | nil => intro seen; simp [dedupAux]
  | cons x xs ih =>
    intro seen
    unfold dedupAux
    split
    · rename_i hx
      rw [ih]
      constructor
      · rintro ⟨h1, h2⟩
        exact ⟨List.mem_cons_of_mem x h1, h2⟩
      · rintro ⟨h1, h2⟩
        rcases List.mem_cons.mp h1 with rfl | h1
        · exact absurd hx h2
        · exact ⟨h1, h2⟩
    · rename_i hx
      constructor
      · intro hmem
        rcases List.mem_cons.mp hmem with rfl | hmem
        · exact ⟨List.mem_cons_self _ _, hx⟩
        · obtain ⟨h1, h2⟩ := (ih (seen ++ [x])).mp hmem
          exact ⟨List.mem_cons_of_mem x h1, fun hc => h2 (List.mem_append_left _ hc)⟩
      · rintro ⟨h1, h2⟩
        rcases List.mem_cons.mp h1 with rfl | h1
        · exact List.mem_cons_self _ _
        · by_cases hyx : y = x
          · subst hyx
            exact List.mem_cons_self _ _
          · refine List.mem_cons_of_mem x ((ih (seen ++ [x])).mpr ⟨h1, ?_⟩)
            intro hc
            rcases List.mem_append.mp hc with hc | hc
            · exact h2 hc
            · exact hyx (List.mem_singleton.mp hc)

lemma dedupAux_nodup : ∀ (l seen : List Str), (dedupAux seen l).Nodup := by
  intro l
  induction l with
  | nil => intro seen; simp [dedupAux]
  | cons x xs ih =>
    intro seen
    unfold dedupAux
    split
    · exact ih seen
    · rw [List.nodup_cons]
      refine ⟨fun hx => ?_, ih (seen ++ [x])⟩
      have := (mem_dedupAux x xs (seen ++ [x])).mp hx
      exact this.2 (List.mem_append.mpr (Or.inr (List.mem_singleton.mpr rfl)))

/-- C8 counterexample: for the raw fragments of `"nonn,nonn,,bogus"`
the canonical keyword list installed by the `%K` block is
`["bogus", "nonn"]` — the unknown keyword is kept, only warned about —
not `["nonn"]` as the claim's example states. -/
theorem C8_keyword_counterexample :
    processK (some "%K nonn,nonn,,bogus".data) =
      Except.ok (["bogus".data, "nonn".data],
        [Diag.emptyKeyword, Diag.unknownKeyword "bogus".data,
         Diag.duplicateKeyword "nonn".data 2]) ∧
    ["bogus".data, "nonn".data] ≠ ["nonn".data] := by
  decide

/-- C8 amended: the canonical keyword list equals the set of non-empty
raw fragments — unknown keywords included — deduplicated and sorted in
strictly increasing lexicographic order, hence with no duplicates and
no empty strings (first three conjuncts); the example fragments
`["nonn", "nonn", "", "bogus"]` yield the canonical list
`["bogus", "nonn"]` together with exactly one `emptyKeyword`, one
`unknownKeyword` and one `duplicateKeyword` diagnostic (last
conjunct). -/
theorem C8_keyword_canon_amended :
    (∀ fs : List Str, List.Pairwise (fun a b => strLt a b = true) (kwCanon fs)) ∧
    (∀ fs : List Str, (kwCanon fs).Nodup) ∧
    (∀ (fs : List Str) (k : Str), k ∈ kwCanon fs ↔ k ≠ [] ∧ k ∈ fs) ∧
    processK (some "%K nonn,nonn,,bogus".data) =
      Except.ok (["bogus".data, "nonn".data],
        [Diag.emptyKeyword, Diag.unknownKeyword "bogus".data,
         Diag.duplicateKeyword "nonn".data 2]) := by
  have hmem : ∀ (fs : List Str) (k : Str), k ∈ kwCanon fs ↔ k ≠ [] ∧ k ∈ fs := by
    intro fs k
    unfold kwCanon dedupStr
    rw [mem_sortStrs, mem_dedupAux, List.mem_filter]
    constructor
    · rintro ⟨⟨h1, h2⟩, _⟩
      refine ⟨?_, h1⟩
      simp only [Bool.not_eq_true'] at h2
      simpa [List.isEmpty_iff] using h2
    · rintro ⟨h1, h2⟩
      refine ⟨⟨h2, ?_⟩, List.not_mem_nil k⟩
      simp [List.isEmpty_iff, h1]
  refine ⟨?_, ?_, hmem, by decide⟩
  · intro fs
    exact sortStrs_pairwise _ (dedupAux_nodup _ [])
  · intro fs
    have hp := sortStrs_pairwise _
      (dedupAux_nodup (List.filter (fun k => !List.isEmpty k) fs) [])
    exact hp.imp (fun {a b} hab he => by subst he; simp [strLt_irrefl] at hab)

/-- Witness for C8 amended: membership in the canonical list, at a
concrete fragment list. -/
theorem C8_keyword_canon_amended_witness :
    "nonn".data ∈ kwCanon ["nonn".data, [], "nonn".data] ↔
      "nonn".data ≠ [] ∧ "nonn".data ∈ ["nonn".data, [], "nonn".data] :=
  C8_keyword_canon_amended.2.2.1 ["nonn".data, [], "nonn".data] "nonn".data

/-! Section: claim C9 -/

/-- C9 counterexample: a fatal parse error on the first entry aborts
the whole batch — the second row, which parses successfully on its own,
is never processed and `process_database` returns the first row's
fatal error instead of a list containing the second row's entry. -/
theorem C9_batch_counterexample :
    process_database emptyCT
      [(1, "%I\n%S 1\n%K nonn\n%N n".data, "".data),
       (2, "%I\n%S 1\n%N n\n%K nonn\n%O 1,1\n%A x".data, "".data)] =
      Except.error Err.outOfOrderDirectives ∧
    (∃ r, parse_oeis_content emptyCT 2
        "%I\n%S 1\n%N n\n%K nonn\n%O 1,1\n%A x".data "".data = Except.ok r) := by
  refine ⟨by decide, ⟨(⟨2, none, [1], "n".data, [1, 1], ["nonn".data]⟩,
    [Diag.bfileShorterThanInline, Diag.offsetIndexMismatch]), by decide⟩⟩

/-- C9 amended: the batch loop of `process_database` aborts at the
first entry whose parse raises a fatal error, propagating that error
and processing none of the remaining entries (first conjunct); after a
successful parse the entry is appended and the loop continues with the
rest (second conjunct). -/
theorem C9_batch_amended :
    (∀ (ct : CharTable) (oid : Int) (main bfile : Str)
        (rest : List (Int × Str × Str)) (e : Err),
      parse_oeis_content ct oid main bfile = Except.error e →
      process_database ct ((oid, main, bfile) :: rest) = Except.error e) ∧
    (∀ (ct : CharTable) (oid : Int) (main bfile : Str)
        (rest : List (Int × Str × Str)) (entry : OeisEntry) (d : List Diag),
      parse_oeis_content ct oid main bfile = Except.ok (entry, d) →
      process_database ct ((oid, main, bfile) :: rest) =
        match process_database ct rest with
        | .error e => .error e
        | .ok es => .ok (entry :: es)) := by
  constructor
  · intro ct oid main bfile rest e h
    unfold process_database
    rw [h]
  · intro ct oid main bfile rest entry d h
    conv_lhs => rw [process_database]
    rw [h]

/-- Witness for C9 amended: the batch made of one malformed entry
returns that entry's fatal error. -/
theorem C9_batch_amended_witness :
    process_database emptyCT [(1, "%I\n%S 1\n%K nonn\n%N n".data, "".data)] =
      Except.error Err.outOfOrderDirectives :=
  C9_batch_amended.1 emptyCT 1 "%I\n%S 1\n%K nonn\n%N n".data "".data []
    Err.outOfOrderDirectives (by decide)

/-! Section: claim C10 -/

/-- C10: the S/T/U continuation condition is a biconditional: with the
mandatory `%S` line present, the parse fails with
`inconsistentContinuation` whenever the presence of a `%T` line
disagrees in either direction with the `%S` line ending in a comma
(first conjunct), and — with the first biconditional satisfied —
whenever the presence of a `%U` line disagrees in either direction
with the `%T` line being present and ending in a comma (second
conjunct). -/
theorem C10_continuation_biconditional (s : Str) (t u : Option Str) :
    (t.isSome ≠ endsWithComma s →
      processSTU (some s) t u = Except.error Err.inconsistentContinuation) ∧
    (t.isSome = endsWithComma s → u.isSome ≠ optEndsWithComma t →
      processSTU (some s) t u = Except.error Err.inconsistentContinuation) := by
  constructor
  · intro h
    unfold processSTU
    split
    · rename_i heq
      exact Option.noConfusion heq
    · rename_i s0 heq
      injection heq with hs
      subst hs
      rw [if_pos h]
  · intro h1 h2
    unfold processSTU
    split
    · rename_i heq
      exact Option.noConfusion heq
    · rename_i s0 heq
      injection heq with hs
      subst hs
      rw [if_neg (fun hx => hx h1), if_pos h2]

/-- Witness for C10: the `%S` payload ends in a comma but no `%T` line
is present — the one-directional reading of the spec would accept this,
the implementation rejects it. -/
theorem C10_continuation_biconditional_witness :
    processSTU (some "%S 1,".data) none none =
      Except.error Err.inconsistentContinuation :=
  (C10_continuation_biconditional "%S 1,".data none none).1 (by decide)

end Oeis
